import Mathlib

/-!
Verification of the Release Readiness and Linkage Resolution Engine of the
gh-ns8 GitHub CLI extension, against a shallow embedding of its Go sources.

Embedding conventions:
* Go strings are Lean `String` or `List Char` (the latter where we reason by
  induction over characters); machine integers are `Nat` (issue numbers, PR
  numbers and testing counters are small and non-negative; 64-bit overflow of
  `strconv.Atoi` / `fmt.Sscanf` is not modelled).
* The GitHub API client is an explicit collaborator record of pure functions;
  a fallible call returns `Option` (`none` models a non-nil Go `error`).
* A Go function that can `panic` is modelled with result type `Option _`,
  `none` marking the panic.
* Go `map` values are association lists; the readiness verdict and the PR set
  are order-insensitive, so the arbitrary Go map iteration order is harmless.
-/

namespace GhNs8

/-! ## Display constants (internal/module_release/display.go) -/

def EmojiOpenIssue : String := "🟢"
def EmojiClosedIssue : String := "🟣"
def EmojiInProgress : String := "🚧"
def EmojiTesting : String := "🔨"
def EmojiVerified : String := "✅"

/-- IssueInfo mirrors the Go struct of the same name in display.go:
display information derived for one issue. -/
structure IssueInfo where
  Number : Nat
  Status : String
  Progress : String
  Labels : String
  RefCount : Nat
  ParentNumber : Nat
  Children : List Nat
deriving DecidableEq, Repr

/-- CheckSummary mirrors the Go struct in display.go.  The Go field
`Issues map[int]*IssueInfo` is embedded as an association list; entries are
inserted at most once per issue number by `ProcessIssue`. -/
structure CheckSummary where
  UnlinkedPRs : List String
  TranslationPRs : List String
  OrphanCommits : List String
  Issues : List (Nat × IssueInfo)
  IssuesRepo : String
deriving DecidableEq, Repr

/-- lookupIssue models reading `cs.Issues[n]` from the Go map: the value
stored at key `n`, if present. -/
def lookupIssue (issues : List (Nat × IssueInfo)) (n : Nat) : Option IssueInfo :=
  match issues with
  | [] => none
  | (k, v) :: rest => if k = n then some v else lookupIssue rest n

/-- allVerified is the accumulator loop of `CheckSummary.Display`
(display.go lines 180-194): an issue entry with a non-empty child list
contributes the check that every child's `Progress` is the verified emoji
(the entry's own `Progress` is not consulted); an entry with no children
contributes the check of its own `Progress`.  The Go loop `break`s early
once the flag is false, which cannot change the value of the conjunction.
Looking up a child number that is absent from the map would dereference a
nil pointer in Go; the `none` branch here is that (unreachable for summaries
built by a run) case. -/
def allVerified (cs : CheckSummary) : Bool :=
  cs.Issues.all fun e =>
    if e.2.Children.isEmpty then e.2.Progress == EmojiVerified
    else e.2.Children.all fun c =>
      match lookupIssue cs.Issues c with
      | some ci => ci.Progress == EmojiVerified
      | none => false

/-- checkPassedVerdict is the condition of display.go line 196 guarding the
"All checks passed! Ready to release." message: no unlinked PRs and
`allVerified`. -/
def checkPassedVerdict (cs : CheckSummary) : Bool :=
  cs.UnlinkedPRs.isEmpty && allVerified cs

/-- readySpec restates the spec's overall-readiness-verdict sentence
(spec §4.4), verbatim from its words rather than from the code: zero
unlinked PRs, every issue with no children has tier verified, and every
child of every issue with children has tier verified. -/
def readySpec (cs : CheckSummary) : Prop :=
  cs.UnlinkedPRs = [] ∧
  (∀ e ∈ cs.Issues, e.2.Children = [] → e.2.Progress = EmojiVerified) ∧
  (∀ e ∈ cs.Issues, ∀ c ∈ e.2.Children, ∀ ci,
      lookupIssue cs.Issues c = some ci → ci.Progress = EmojiVerified)

/-! ## Issue processing (display.go, ProcessIssue) -/

/-- issueStatusEmoji is the status assignment of ProcessIssue
(display.go lines 78-82): the closed emoji exactly for the two literal
state strings `"CLOSED"` and `"closed"`, the open emoji otherwise. -/
def issueStatusEmoji (state : String) : String :=
  if state == "CLOSED" || state == "closed" then EmojiClosedIssue else EmojiOpenIssue

/-- GhIssue is the slice of the GitHub issue payload that ProcessIssue
consumes: the literal state string and the label names. -/
structure GhIssue where
  state : String
  labels : List String

/-- IssueClient models the GitHub client collaborator used by ProcessIssue:
`getIssue` models `client.GetIssue` (`none` = error) and `getParent` models
`client.GetParentIssueNumber` (`none` = error, `some 0` = no parent). -/
structure IssueClient where
  getIssue : Nat → Option GhIssue
  getParent : Nat → Option Nat

/-- bumpRefCount models `info.RefCount++` through the map pointer:
increment the reference counter of the entry at key `n`. -/
def bumpRefCount (issues : List (Nat × IssueInfo)) (n : Nat) : List (Nat × IssueInfo) :=
  issues.map fun e => if e.1 = n then (e.1, { e.2 with RefCount := e.2.RefCount + 1 }) else e

/-- appendChild models `cs.Issues[p].Children = append(..., child)`:
append `child` to the child list of the entry at key `p` (no-op when `p` is
absent; in Go that would be a nil dereference, unreachable on the paths
where this is called). -/
def appendChild (issues : List (Nat × IssueInfo)) (p child : Nat) : List (Nat × IssueInfo) :=
  issues.map fun e => if e.1 = p then (e.1, { e.2 with Children := e.2.Children ++ [child] }) else e

/-- insertIssue models `cs.Issues[n] = info` for a key `n` not yet present. -/
def insertIssue (issues : List (Nat × IssueInfo)) (n : Nat) (info : IssueInfo) :
    List (Nat × IssueInfo) :=
  issues ++ [(n, info)]

/-- progressEmoji is the tier precedence of ProcessIssue
(display.go lines 102-108). -/
def progressEmoji (hasVerified hasTesting : Bool) : String :=
  if hasVerified then EmojiVerified else if hasTesting then EmojiTesting else EmojiInProgress

/-- ProcessIssue is a fuelled embedding of `CheckSummary.ProcessIssue`
(display.go lines 58-128).  The Go method recurses on the parent chain with
no structural bound, so the embedding spends one unit of fuel per call;
`none` means the fuel ran out, i.e. the Go recursion did not return within
that depth.  The result `some (issues, ok)` is the updated issue map and
whether the Go method returned a nil error.  Steps, in source order:
memo-hit bumps the reference count; a failed issue fetch returns the error
with the map unchanged; otherwise status, labels and progress tier are
derived; then the parent is fetched and, when present (`> 0`) and not yet in
the map, processed recursively, the current number being appended to the
parent's child list when that recursion returns nil; finally the new entry
is stored. -/
def ProcessIssue (client : IssueClient) :
    Nat → Nat → List (Nat × IssueInfo) → Option (List (Nat × IssueInfo) × Bool)
  | 0, _, _ => none
  | fuel + 1, n, issues =>
    match lookupIssue issues n with
    | some _ => some (bumpRefCount issues n, true)
    | none =>
      match client.getIssue n with
      | none => some (issues, false)
      | some gi =>
        let hasVerified := gi.labels.contains "verified"
        let hasTesting := gi.labels.contains "testing"
        let others := gi.labels.filter fun l => !(l == "verified") && !(l == "testing")
        let info : IssueInfo :=
          { Number := n
            Status := issueStatusEmoji gi.state
            Progress := progressEmoji hasVerified hasTesting
            Labels := String.intercalate " " others
            RefCount := 1
            ParentNumber := 0
            Children := [] }
        match client.getParent n with
        | none => some (insertIssue issues n info, true)
        | some p =>
          if p > 0 then
            let info' := { info with ParentNumber := p }
            match lookupIssue issues p with
            | some _ => some (insertIssue (appendChild issues p n) n info', true)
            | none =>
              match ProcessIssue client fuel p issues with
              | none => none
              | some (issues2, ok) =>
                let issues3 := if ok then appendChild issues2 p n else issues2
                some (insertIssue issues3 n info', true)
          else
            some (insertIssue issues n info, true)

/-- cyclicClient is a collaborator answering every issue fetch with an open,
label-free issue, and reporting every issue as its own parent: the simplest
malformed (cyclic) parent relation the upstream platform could return. -/
def cyclicClient : IssueClient :=
  { getIssue := fun _ => some { state := "open", labels := [] }
    getParent := fun n => some n }

/-! ## Version sequencing (internal/module_release/semver.go) -/

/-- tMarker is the literal `-testing.` infix of the Go pattern
`^(.*-testing\.)(\d+)$`. -/
def tMarker : List Char := "-testing.".toList

/-- digitsVal is the value of a decimal digit string, as `strconv.Atoi`
computes it (64-bit overflow not modelled). -/
def digitsVal (l : List Char) : Nat :=
  l.foldl (fun a c => a * 10 + (c.toNat - '0'.toNat)) 0

/-- incrementTestingNumber embeds the Go function of the same name
(semver.go lines 65-80).  The Go regex `^(.*-testing\.)(\d+)$` matches iff
the tag ends in a non-empty digit run preceded by the literal `-testing.`,
with no newline in the part matched by `.*` (Go `.` does not match
newlines); the greedy groups make the captured digit run exactly the
maximal digit suffix.  On a match the result is the captured prefix
followed by the decimal rendering of the captured number plus one;
otherwise `none` models the format error. -/
def incrementTestingNumber (version : List Char) : Option (List Char) :=
  let rev := version.reverse
  let d := (rev.takeWhile Char.isDigit).reverse
  let core := (rev.dropWhile Char.isDigit).reverse
  if d.isEmpty then none
  else if tMarker.isSuffixOf core then
    if (core.take (core.length - tMarker.length)).all (fun c => !(c == '\n')) then
      some (core ++ Nat.toDigits 10 (digitsVal d + 1))
    else none
  else none

/-- incrementPatchAndAddTesting embeds the Go function of the same name
(semver.go lines 83-99).  The Go regex `^(\d+)\.(\d+)\.(\d+)` (unanchored on
the right, `\d+` greedy) matches iff the tag starts with three non-empty
digit runs separated by periods; the third run is maximal.  On a match the
result keeps the first two captured runs verbatim (leading zeros included),
parses the third with `strconv.Atoi`, increments it, and appends
`-testing.1`; otherwise `none` models the format error. -/
def incrementPatchAndAddTesting (version : List Char) : Option (List Char) :=
  let d1 := version.takeWhile Char.isDigit
  match version.dropWhile Char.isDigit with
  | '.' :: r1 =>
    let d2 := r1.takeWhile Char.isDigit
    match r1.dropWhile Char.isDigit with
    | '.' :: r2 =>
      let d3 := r2.takeWhile Char.isDigit
      if d1.isEmpty || d2.isEmpty || d3.isEmpty then none
      else some (d1 ++ '.' :: d2 ++ '.' :: Nat.toDigits 10 (digitsVal d3 + 1) ++ "-testing.1".toList)
    | _ => none
  | _ => none

/-! ## Commit classification of the check run (cmd runCheck) -/

/-- commitHasPR is the marking condition of the runCheck loop
`if err == nil && len(prs) > 0`: the per-commit PR lookup succeeded and
returned at least one PR number. -/
def commitHasPR (lookup : String → Option (List Nat)) (sha : String) : Bool :=
  match lookup sha with
  | some prs => !prs.isEmpty
  | none => false

/-- commitsInPRs models the `commitsInPRs` map built by runCheck: the keys
set to true, collected in iteration order over the commit range.  The
commit-to-list URL formatting of the Go code is dropped (pure rendering);
entries are raw commit SHAs. -/
def commitsInPRs (lookup : String → Option (List Nat)) (commits : List String) : List String :=
  commits.foldl (fun acc sha => if commitHasPR lookup sha then acc ++ [sha] else acc) []

/-- orphanCommitsOf models the orphan loop of runCheck: every commit of the
range whose SHA is not a true key of the `commitsInPRs` map becomes an
orphan entry. -/
def orphanCommitsOf (lookup : String → Option (List Nat)) (commits : List String) : List String :=
  commits.foldl
    (fun acc sha => if (commitsInPRs lookup commits).contains sha then acc else acc ++ [sha]) []

/-! ## Linked-issue extraction (internal/module_release/repo.go, GetLinkedIssues) -/

/-- regexParensOk is a conservative model of `regexp.MustCompile` parse
success for the patterns GetLinkedIssues builds: it checks that group
parentheses balance (a backslash escaping the next character) and that no
pattern ends in a dangling backslash.  Other RE2 syntax errors (bad
repetitions, unclosed character classes) are not modelled; the patterns the
theorems exercise are decided correctly by this check. -/
def regexParensOk : List Char → Nat → Bool
  | [], d => d == 0
  | c :: rest, d =>
    if c == '\\' then
      match rest with
      | [] => false
      | _ :: rest' => regexParensOk rest' d
    else if c == '(' then regexParensOk rest (d + 1)
    else if c == ')' then
      match d with
      | 0 => false
      | d' + 1 => regexParensOk rest d'
    else regexParensOk rest d

/-- findMatchesGo is Go's `FindAllStringSubmatch(body, -1)` for a pattern of
the shape `<literal>(\d+)`: scan left to right; at a position where the
literal occurs followed by at least one digit, capture the maximal digit
run and resume after it (matches never overlap); otherwise advance one
character.  Each captured run is parsed as by `fmt.Sscanf("%d")` and kept
only when positive, as in the Go collection loop.  The first argument of
the recursion is fuel, see findMatches below. -/
def findMatchesGo (lit : List Char) : Nat → List Char → List Nat
  | 0, _ => []
  | _ + 1, [] => []
  | fuel + 1, b :: tailB =>
    if lit.isPrefixOf (b :: tailB) then
      match ((b :: tailB).drop lit.length).takeWhile Char.isDigit with
      | [] => findMatchesGo lit fuel tailB
      | dh :: dt =>
        (if digitsVal (dh :: dt) > 0 then [digitsVal (dh :: dt)] else []) ++
          findMatchesGo lit fuel (((b :: tailB).drop lit.length).dropWhile Char.isDigit)
    else findMatchesGo lit fuel tailB

/-- findMatches runs the scan with one unit of fuel per step.  Every
recursive step of findMatchesGo shortens the remaining body by at least one
character while spending exactly one unit, so with the initial bound
`body.length + 1` the zero-fuel fallback is unreachable and the function
computes the full match list; structural recursion on the fuel keeps it
kernel-computable. -/
def findMatches (lit body : List Char) : List Nat :=
  findMatchesGo lit (body.length + 1) body

/-- GetLinkedIssues embeds the Go function of the same name
(repo.go lines 160-193).  `strings.Split(issuesRepo, "/")` must give exactly
two parts, otherwise the empty list is returned before any regex is built.
Then three patterns are compiled with `regexp.MustCompile` — a panic
(modelled as `none`) when a pattern is not a valid regex, e.g. when the
owner token contains an unbalanced parenthesis — and matched in order, the
match lists concatenated.  Matching treats the owner/name tokens literally,
which coincides with Go exactly when those tokens contain no regex
metacharacters (the only situation the theorems rely on). -/
def GetLinkedIssues (prBody issuesRepo : List Char) : Option (List Nat) :=
  match issuesRepo.splitOn '/' with
  | [owner, repoName] =>
    let pat1 := owner ++ "/issues/(\\d+)".toList
    let pat2 := owner ++ '/' :: repoName ++ "#(\\d+)".toList
    let pat3 := "https://github\\.com/".toList ++ owner ++ '/' :: repoName ++ "/issues/(\\d+)".toList
    if regexParensOk pat1 0 && regexParensOk pat2 0 && regexParensOk pat3 0 then
      some (findMatches (owner ++ "/issues/".toList) prBody ++
            findMatches (owner ++ '/' :: repoName ++ ['#']) prBody ++
            findMatches ("https://github.com/".toList ++ owner ++ '/' :: repoName ++ "/issues/".toList) prBody)
    else none
  | _ => some []

/-- regexMetaChars are the RE2 metacharacters; owner/name tokens free of
them are matched literally by the Go patterns. -/
def regexMetaChars : List Char :=
  ['\\', '(', ')', '[', ']', '\x7b', '\x7d', '*', '+', '?', '.', '^', '$', '|']

/-! ## PR scanning (internal/module_release/repo.go, ScanForPRs) -/

inductive ScanError where
  | compareFailed
  | emptyRange
  | noPRsFound
deriving DecidableEq, Repr

/-- insertPR models `prMap[prNum] = true`: membership-insert keeping first
insertion order (the Go map's value set; its arbitrary iteration order at
slice-conversion time is not significant to any claim). -/
def insertPR (acc : List Nat) (n : Nat) : List Nat :=
  if acc.contains n then acc else acc ++ [n]

/-- scanPRSet is the commit loop of ScanForPRs: per commit, a failed PR
lookup is skipped (`continue`), a successful one inserts every returned PR
number into the set. -/
def scanPRSet (lookup : String → Option (List Nat)) (commits : List String) : List Nat :=
  commits.foldl
    (fun acc sha =>
      match lookup sha with
      | none => acc
      | some prs => prs.foldl insertPR acc) []

/-- ScanForPRs embeds the Go function of the same name (repo.go lines
123-157).  `compareResult` models `client.CompareCommits` (`none` = the
transport error, reported as its own failure); an empty commit list is the
empty-range error; an empty accumulated PR set after scanning every commit
is the no-PRs-found error. -/
def ScanForPRs (compareResult : Option (List String)) (lookup : String → Option (List Nat)) :
    Except ScanError (List Nat) :=
  match compareResult with
  | none => .error .compareFailed
  | some commits =>
    if commits.isEmpty then .error .emptyRange
    else
      let prs := scanPRSet lookup commits
      if prs.isEmpty then .error .noPRsFound else .ok prs

/-! ## Previous-release search (internal/module_release/semver.go, FindPreviousRelease) -/

structure Release where
  TagName : String
  IsPrerelease : Bool
deriving DecidableEq, Repr

inductive PrevReleaseError where
  | currentNotFound
  | noPrevious
  | noPreviousStable
deriving DecidableEq, Repr

/-- FindPreviousRelease embeds the Go function of the same name (semver.go
lines 102-145) given the already-fetched inputs: `currentIsPre` is the
prerelease flag `client.ViewRelease` returned for the current tag, and
`allReleases` the recency-ordered list from `client.ListReleases` (newest
first); the transport failures of those two calls happen before this logic.
`findIdx?` is the Go index-search loop; the `i = length - 1` test is the
Go `currentIndex == len(allReleases)-1` guard; `(drop (i+1)).head?` is the
access `allReleases[currentIndex+1]` (in range by the guard, so the `none`
branch is unreachable); `(drop (i+1)).find?` is the Go scan loop for the
first non-prerelease after the current index. -/
def FindPreviousRelease (currentIsPre : Bool) (allReleases : List Release) (currentTag : String) :
    Except PrevReleaseError String :=
  match allReleases.findIdx? (fun r => r.TagName == currentTag) with
  | none => .error .currentNotFound
  | some i =>
    if i = allReleases.length - 1 then .error .noPrevious
    else if currentIsPre then
      match (allReleases.drop (i + 1)).head? with
      | some r => .ok r.TagName
      | none => .error .noPrevious
    else
      match (allReleases.drop (i + 1)).find? (fun r => !r.IsPrerelease) with
      | some r => .ok r.TagName
      | none => .error .noPreviousStable

/-! ## Semver validation and the create flow (semver.go IsSemver; cmd runCreate) -/

/-- isDigitRun holds for a non-empty string of ASCII decimal digits. -/
def isDigitRun (l : List Char) : Bool := !l.isEmpty && l.all Char.isDigit

/-- numericIdOk is the regex alternative `0|[1-9][0-9]*`: a digit run with
no leading zero, or the single digit zero. -/
def numericIdOk (l : List Char) : Bool :=
  isDigitRun l && (l == ['0'] || l.head? != some '0')

/-- alnumHyphen is the regex class `[0-9a-zA-Z-]`. -/
def alnumHyphen (c : Char) : Bool := c.isDigit || c.isAlpha || c == '-'

/-- preIdOk is the prerelease-identifier alternative of the semver regex:
`0|[1-9][0-9]*|[0-9]*[a-zA-Z-][0-9a-zA-Z-]*` — all-digit identifiers must
carry no leading zero, identifiers with a letter or hyphen are free. -/
def preIdOk (l : List Char) : Bool :=
  !l.isEmpty && l.all alnumHyphen && (!(l.all Char.isDigit) || numericIdOk l)

/-- buildIdOk is the build-metadata identifier class `[0-9a-zA-Z-]+`. -/
def buildIdOk (l : List Char) : Bool := !l.isEmpty && l.all alnumHyphen

/-- breakAtChar splits a string at the first occurrence of `c`:
the part before it, and the part after it when `c` occurs at all. -/
def breakAtChar (c : Char) : List Char → List Char × Option (List Char)
  | [] => ([], none)
  | x :: xs =>
    if x == c then ([], some xs)
    else
      let r := breakAtChar c xs
      (x :: r.1, r.2)

/-- IsSemver embeds the Go `IsSemver` (semver.go lines 13-18), i.e. the
official semver.org regex: `major.minor.patch` from `0|[1-9][0-9]*`, an
optional hyphen-led dot-separated prerelease, an optional plus-led
dot-separated build part.  Splitting build metadata at the first `+` and the
prerelease at the first `-` before it is unambiguous because `+` cannot
occur inside prerelease or build identifiers and `-` cannot occur inside
the numeric triple. -/
def IsSemver (s : String) : Bool :=
  let mb := breakAtChar '+' s.toList
  let vp := breakAtChar '-' mb.1
  let coreOk :=
    match vp.1.splitOn '.' with
    | [a, b, c] => numericIdOk a && numericIdOk b && numericIdOk c
    | _ => false
  let preOk :=
    match vp.2 with
    | none => true
    | some p => (p.splitOn '.').all preIdOk
  let buildOk :=
    match mb.2 with
    | none => true
    | some b => (b.splitOn '.').all buildIdOk
  coreOk && preOk && buildOk

/-- CreateReleaseCall is the argument tuple the create command passes to
`client.CreateRelease` (the repo and notes arguments, irrelevant to the
claims, are dropped). -/
structure CreateReleaseCall where
  tag : String
  title : String
  draft : Bool
  prerelease : Bool
  target : String
deriving DecidableEq, Repr

/-- runCreate embeds the release-name / prerelease-flag logic of the create
command's `runCreate` (both the flag-based and the positional-argument
variant share it verbatim): `nameArg` is the user-supplied release name
(empty when absent), `nextTestingName` models `NextTestingRelease` (`none` =
error), and `target` is the resolved commit target.  `isPre` is computed
from the testing flag and the user-supplied name before auto-generation,
exactly as in the source; `none` models the error returns that prevent the
invocation from reaching `client.CreateRelease`. -/
def runCreate (testing draft : Bool) (nameArg : String) (nextTestingName : Option String)
    (target : String) : Option CreateReleaseCall :=
  let isPre := testing || nameArg.toList.contains '-'
  match (if testing && nameArg == "" then nextTestingName else some nameArg) with
  | none => none
  | some name =>
    if name == "" && !testing then none
    else if name != "" && !(IsSemver name) then none
    else some { tag := name, title := name, draft := draft, prerelease := isPre, target := target }

/-! ## Concrete check summaries used by the readiness-verdict claim -/

/-- leafVerified is a childless, parentless issue entry carrying the
verified tier. -/
def leafVerified (n : Nat) : IssueInfo :=
  { Number := n, Status := EmojiOpenIssue, Progress := EmojiVerified, Labels := "",
    RefCount := 1, ParentNumber := 0, Children := [] }

/-- csAllVerified is a summary with no unlinked PRs and two verified leaf
issues: every check passes. -/
def csAllVerified : CheckSummary :=
  { UnlinkedPRs := [], TranslationPRs := [], OrphanCommits := [],
    Issues := [(1, leafVerified 1), (2, leafVerified 2)], IssuesRepo := "NethServer/dev" }

/-- csWithUnlinked is csAllVerified with one unlinked PR added. -/
def csWithUnlinked : CheckSummary :=
  { csAllVerified with UnlinkedPRs := ["https://github.com/owner/ns8-module/pull/5"] }

/-- csParentMixed has a parent issue that itself carries the verified tier
and two children, one verified and one testing. -/
def csParentMixed : CheckSummary :=
  { UnlinkedPRs := [], TranslationPRs := [], OrphanCommits := [],
    Issues :=
      [(10, { Number := 10, Status := EmojiOpenIssue, Progress := EmojiVerified, Labels := "",
              RefCount := 1, ParentNumber := 0, Children := [11, 12] }),
       (11, { leafVerified 11 with ParentNumber := 10 }),
       (12, { Number := 12, Status := EmojiOpenIssue, Progress := EmojiTesting, Labels := "",
              RefCount := 1, ParentNumber := 10, Children := [] })],
    IssuesRepo := "NethServer/dev" }

/-- lowerStr is ASCII lowercasing of a string, character by character: the
reading of "equals ignoring case" used when comparing state strings. -/
def lowerStr (s : String) : String := String.mk (s.toList.map Char.toLower)

/-- c4Lookup is a concrete per-commit PR lookup: commit "a" is in PR 1,
commit "b" fails its lookup, commit "c" succeeds with no PRs. -/
def c4Lookup (sha : String) : Option (List Nat) :=
  if sha = "a" then some [1] else if sha = "b" then none else some []

/-- c4Commits is a concrete three-commit range. -/
def c4Commits : List String := ["a", "b", "c"]

/-- c7Repo is the default issues repository. -/
def c7Repo : List Char := "NethServer/dev".toList

/-- c7Body is the spec's worked extraction example. -/
def c7Body : List Char :=
  "Fixes NethServer/dev#42 and see https://github.com/NethServer/dev/issues/43".toList

/-- c7BodyDup references the same issue through two different textual
forms. -/
def c7BodyDup : List Char := "NethServer/issues/7 NethServer/dev#7".toList

/-- c7BodyLower is the worked example with the owner token lowercased. -/
def c7BodyLower : List Char :=
  "Fixes nethserver/dev#42 and see https://github.com/nethserver/dev/issues/43".toList

/-- c9Rels is a recency-ordered release list (newest first) whose newest
entry is stable and is separated from the previous stable release by two
pre-releases. -/
def c9Rels : List Release :=
  [{ TagName := "1.0.1", IsPrerelease := false },
   { TagName := "1.0.1-testing.2", IsPrerelease := true },
   { TagName := "1.0.1-testing.1", IsPrerelease := true },
   { TagName := "1.0.0", IsPrerelease := false }]

/-- c9RelsPre is a recency-ordered release list whose newest entry is a
pre-release immediately preceded by another pre-release. -/
def c9RelsPre : List Release :=
  [{ TagName := "1.0.1-testing.2", IsPrerelease := true },
   { TagName := "1.0.1-testing.1", IsPrerelease := true },
   { TagName := "1.0.0", IsPrerelease := false }]

/-! # Theorems -/

/-! ## General list helpers -/

theorem takeWhile_append_of_all {p : Char → Bool} {l1 l2 : List Char}
    (h1 : l1.all p = true) (h2 : l2.takeWhile p = []) :
    (l1 ++ l2).takeWhile p = l1 := by
  have hself : l1.takeWhile p = l1 :=
    List.takeWhile_eq_self_iff.mpr (List.all_eq_true.mp h1)
  rw [List.takeWhile_append, hself, h2]
  simp

theorem dropWhile_append_of_all {p : Char → Bool} {l1 l2 : List Char}
    (h1 : l1.all p = true) (h2 : l2.takeWhile p = []) :
    (l1 ++ l2).dropWhile p = l2 := by
  have hd : l1.dropWhile p = [] :=
    List.dropWhile_eq_nil_iff.mpr (List.all_eq_true.mp h1)
  have hd2 : l2.dropWhile p = l2 := by
    have hsplit := List.takeWhile_append_dropWhile (p := p) (l := l2)
    rw [h2] at hsplit
    simpa using hsplit
  rw [List.dropWhile_append, hd, hd2]
  simp

theorem takeWhile_nil_of_head {p : Char → Bool} {l : List Char}
    (h : ∀ c, l.head? = some c → p c = false) : l.takeWhile p = [] := by
  cases l with
  | nil => rfl
  | cons a t => simp [List.takeWhile_cons, h a rfl]

theorem dropWhile_head_false {p : Char → Bool} {l : List Char} {c : Char} {t : List Char}
    (h : l.dropWhile p = c :: t) : p c = false := by
  induction l with
  | nil => simp at h
  | cons a l ih =>
    rw [List.dropWhile_cons] at h
    by_cases hpa : p a = true
    · exact ih (by simpa [hpa] using h)
    · rw [if_neg hpa] at h
      injection h with h1 _
      subst h1
      simpa using hpa

theorem all_takeWhile_self (p : Char → Bool) (l : List Char) :
    (l.takeWhile p).all p = true := by
  induction l with
  | nil => rfl
  | cons a t ih =>
    rw [List.takeWhile_cons]
    by_cases h : p a = true
    · simpa [h] using ih
    · simp [h]

/-! ## C1 -/

/-- C1: for a summary whose child lists only reference issues present in the
map (as in every summary a check run builds), the "All checks passed"
verdict is true iff there are no unlinked PRs, every childless issue entry
has the verified tier, and every child of every entry with children has the
verified tier; the tier of an entry with children is never itself consulted.
Consequently csAllVerified passes, adding one unlinked PR (csWithUnlinked)
flips the verdict to false, and the parent with children
(verified, testing) in csParentMixed yields false although the parent
itself is verified. -/
theorem c1_check_verdict :
    (∀ cs : CheckSummary,
        (∀ e ∈ cs.Issues, ∀ c ∈ e.2.Children, (lookupIssue cs.Issues c).isSome = true) →
        (checkPassedVerdict cs = true ↔ readySpec cs)) ∧
    checkPassedVerdict csAllVerified = true ∧
    checkPassedVerdict csWithUnlinked = false ∧
    checkPassedVerdict csParentMixed = false := by
  refine ⟨?_, by decide, by decide, by decide⟩
  intro cs hclosed
  unfold checkPassedVerdict readySpec allVerified
  rw [Bool.and_eq_true, List.isEmpty_iff, List.all_eq_true]
  constructor
  · rintro ⟨hU, hAll⟩
    refine ⟨hU, ?_, ?_⟩
    · intro e he hch
      have h := hAll e he
      rw [if_pos (List.isEmpty_iff.mpr hch)] at h
      exact eq_of_beq h
    · intro e he c hc ci hci
      have h := hAll e he
      have hne : ¬(e.2.Children.isEmpty = true) := by
        rw [List.isEmpty_iff]
        intro hnil
        rw [hnil] at hc
        cases hc
      rw [if_neg hne, List.all_eq_true] at h
      have hcc := h c hc
      rw [hci] at hcc
      exact eq_of_beq hcc
  · rintro ⟨hU, h2, h3⟩
    refine ⟨hU, ?_⟩
    intro e he
    by_cases hch : e.2.Children.isEmpty = true
    · rw [if_pos hch]
      exact beq_of_eq (h2 e he (List.isEmpty_iff.mp hch))
    · rw [if_neg hch, List.all_eq_true]
      intro c hc
      have hs := hclosed e he c hc
      cases hlk : lookupIssue cs.Issues c with
      | none => rw [hlk] at hs; cases hs
      | some ci =>
        simp only [hlk]
        exact beq_of_eq (h3 e he c hc ci hlk)

theorem c1_check_verdict_witness :
    (∀ e ∈ csParentMixed.Issues, ∀ c ∈ e.2.Children,
        (lookupIssue csParentMixed.Issues c).isSome = true) ∧
    (checkPassedVerdict csParentMixed = true ↔ readySpec csParentMixed) :=
  ⟨by decide, c1_check_verdict.1 csParentMixed (by decide)⟩

/-! ## C2 -/

/-- C2: the Go ProcessIssue does not terminate on cyclic parent data: on the
collaborator that reports issue 1 as its own parent, the fuelled embedding
fails to return for every fuel bound, because the memoization entry is only
written after the recursive ascent, so no revisit is ever detected.  This
refutes the claim that a revisit detected during ascent bounds the
recursion. -/
theorem c2_process_issue_unbounded_on_cycle :
    ∀ fuel : Nat, ProcessIssue cyclicClient fuel 1 [] = none := by
  intro fuel
  induction fuel with
  | zero => rfl
  | succ k ih =>
    unfold cyclicClient at ih
    simp [ProcessIssue, cyclicClient, lookupIssue, ih]

/-! ## C5 -/

/-- C5 counterexample: the state string "Closed" equals "closed" ignoring
case, yet ProcessIssue assigns it the open status, because the code
compares only against the two literal strings "CLOSED" and "closed". -/
theorem c5_status_counterexample :
    lowerStr "Closed" = lowerStr "closed" ∧ issueStatusEmoji "Closed" ≠ EmojiClosedIssue := by
  decide

/-- C5 amended: the issue status is the closed status exactly for the two
literal state strings "CLOSED" and "closed"; every other state string,
including mixed-case forms such as "Closed", yields the open status. -/
theorem c5_status_amended :
    ∀ state : String, issueStatusEmoji state = EmojiClosedIssue ↔
      (state = "CLOSED" ∨ state = "closed") := by
  intro state
  unfold issueStatusEmoji
  by_cases h1 : state = "CLOSED"
  · simp [h1]
  · by_cases h2 : state = "closed"
    · simp [h2]
    · have hb : (state == "CLOSED" || state == "closed") = false := by
        simp [h1, h2]
      rw [hb]
      simp only [Bool.false_eq_true, if_false]
      constructor
      · intro h
        exact absurd h (by decide)
      · rintro (h | h) <;> exact absurd h (by simp [h1, h2])

/-! ## C4 -/

theorem foldl_append_filter {α : Type} (f : α → Bool) :
    ∀ (l : List α) (acc : List α),
      l.foldl (fun a x => if f x then a ++ [x] else a) acc = acc ++ l.filter f := by
  intro l
  induction l with
  | nil => intro acc; simp
  | cons x t ih =>
    intro acc
    rw [List.foldl_cons, List.filter_cons]
    by_cases h : f x = true
    · rw [if_pos h, if_pos h, ih]
      simp
    · rw [if_neg h, if_neg h, ih]

theorem foldl_append_filter_not {α : Type} (f : α → Bool) :
    ∀ (l : List α) (acc : List α),
      l.foldl (fun a x => if f x then a else a ++ [x]) acc = acc ++ l.filter (fun x => !f x) := by
  intro l
  induction l with
  | nil => intro acc; simp
  | cons x t ih =>
    intro acc
    rw [List.foldl_cons, List.filter_cons]
    by_cases h : f x = true
    · rw [if_pos h, ih]
      simp [h]
    · rw [if_neg h, ih]
      simp [h]

theorem commitsInPRs_eq_filter (lookup : String → Option (List Nat)) (commits : List String) :
    commitsInPRs lookup commits = commits.filter (commitHasPR lookup) := by
  unfold commitsInPRs
  rw [foldl_append_filter]
  simp

theorem orphanCommitsOf_eq_filter (lookup : String → Option (List Nat)) (commits : List String) :
    orphanCommitsOf lookup commits
      = commits.filter (fun sha => !(commitsInPRs lookup commits).contains sha) := by
  unfold orphanCommitsOf
  rw [foldl_append_filter_not]
  simp

/-- C4: in a check run, a commit of the scanned range is marked in-PR
exactly when it is not an orphan — the two sets partition the range — and a
commit whose per-commit PR lookup fails lands in the orphan set. -/
theorem c4_commit_partition :
    ∀ (lookup : String → Option (List Nat)) (commits : List String) (sha : String),
      sha ∈ commits →
      ((sha ∈ commitsInPRs lookup commits ↔ sha ∉ orphanCommitsOf lookup commits) ∧
       (lookup sha = none → sha ∈ orphanCommitsOf lookup commits)) := by
  intro lookup commits sha hmem
  have hin : sha ∈ commitsInPRs lookup commits ↔ commitHasPR lookup sha = true := by
    rw [commitsInPRs_eq_filter, List.mem_filter]
    exact ⟨fun h => h.2, fun h => ⟨hmem, h⟩⟩
  have horph : sha ∈ orphanCommitsOf lookup commits ↔ sha ∉ commitsInPRs lookup commits := by
    rw [orphanCommitsOf_eq_filter, List.mem_filter]
    constructor
    · rintro ⟨_, h⟩
      simpa [List.contains, List.elem_iff] using h
    · intro h
      refine ⟨hmem, ?_⟩
      simpa [List.contains, List.elem_iff] using h
  constructor
  · rw [horph]
    constructor
    · intro h hcontra
      exact hcontra h
    · intro h
      by_contra hno
      exact h hno
  · intro hnone
    rw [horph, hin]
    simp [commitHasPR, hnone]

theorem c4_commit_partition_witness :
    ("b" ∈ c4Commits) ∧
    (("b" ∈ commitsInPRs c4Lookup c4Commits ↔ "b" ∉ orphanCommitsOf c4Lookup c4Commits) ∧
     (c4Lookup "b" = none → "b" ∈ orphanCommitsOf c4Lookup c4Commits)) :=
  ⟨by decide, c4_commit_partition c4Lookup c4Commits "b" (by decide)⟩

/-! ## C8 -/

theorem scanPRSet_skips_failed_lookups (lookup : String → Option (List Nat)) :
    ∀ (commits : List String) (acc : List Nat),
      commits.foldl
        (fun acc sha =>
          match lookup sha with
          | none => acc
          | some prs => prs.foldl insertPR acc) acc
      = (commits.filter fun c => (lookup c).isSome).foldl
        (fun acc sha =>
          match lookup sha with
          | none => acc
          | some prs => prs.foldl insertPR acc) acc := by
  intro commits
  induction commits with
  | nil => intro acc; rfl
  | cons sha t ih =>
    intro acc
    rw [List.filter_cons]
    cases hl : lookup sha with
    | none => simp [List.foldl_cons, hl, ih]
    | some prs => simp [List.foldl_cons, hl, ih]

/-- C8: with a successfully fetched commit range, ScanForPRs reports the
empty-range error exactly when the range has no commits; commits whose PR
lookup fails are exactly as if they were absent from the range (so a single
failing lookup is never fatal); and the no-PRs-found error is reported
exactly when the range is non-empty but the accumulated PR set is empty
after scanning every commit, the success value being that set otherwise. -/
theorem c8_scan_for_prs :
    ∀ (commits : List String) (lookup : String → Option (List Nat)),
      (ScanForPRs (some commits) lookup = .error .emptyRange ↔ commits = []) ∧
      (scanPRSet lookup commits = scanPRSet lookup (commits.filter fun c => (lookup c).isSome)) ∧
      (ScanForPRs (some commits) lookup = .error .noPRsFound ↔
        commits ≠ [] ∧ scanPRSet lookup commits = []) ∧
      (∀ prs, ScanForPRs (some commits) lookup = .ok prs ↔
        commits ≠ [] ∧ scanPRSet lookup commits = prs ∧ prs ≠ []) := by
  intro commits lookup
  have hrepr : ScanForPRs (some commits) lookup =
      (if commits.isEmpty = true then Except.error ScanError.emptyRange
       else if (scanPRSet lookup commits).isEmpty = true then Except.error ScanError.noPRsFound
       else Except.ok (scanPRSet lookup commits)) := rfl
  refine ⟨?_, scanPRSet_skips_failed_lookups lookup commits [], ?_, ?_⟩
  · rw [hrepr]
    split_ifs with h1 h2 <;> simp_all [List.isEmpty_iff]
  · rw [hrepr]
    split_ifs with h1 h2 <;> simp_all [List.isEmpty_iff]
  · intro prs
    rw [hrepr]
    split_ifs with h1 h2 <;> simp_all [List.isEmpty_iff]
    exact fun h => h ▸ h2

/-! ## C3 -/

theorem tMarker_rev_head (p : List Char) : (tMarker.reverse ++ p.reverse).head? = some '.' := rfl

theorem takeWhile_digit_marker_rev (p : List Char) :
    (tMarker.reverse ++ p.reverse).takeWhile Char.isDigit = [] := by
  apply takeWhile_nil_of_head
  intro c hc
  rw [tMarker_rev_head] at hc
  injection hc with hc'
  subst hc'
  decide

theorem reverse_split_digit (v : List Char) :
    v = (v.reverse.dropWhile Char.isDigit).reverse ++ (v.reverse.takeWhile Char.isDigit).reverse := by
  conv_lhs =>
    rw [← List.reverse_reverse v,
      ← List.takeWhile_append_dropWhile (p := Char.isDigit) (l := v.reverse)]
  rw [List.reverse_append]

/-- C3: the two branches of NextTestingRelease's tag rewriting.
Prerelease branch (incrementTestingNumber): a tag of the shape
prefix ++ "-testing." ++ digits — digits non-empty, the prefix free of
newlines (true of every git tag, and forced by the Go regex dot) — maps to
the same prefix with the numerically incremented counter; conversely every
successful result arises from such a decomposition, so any tag not matching
the suffix pattern yields the format error.  Stable branch
(incrementPatchAndAddTesting): a tag whose leading numeric triple is
d1.d2.d3 (third run maximal) maps to d1.d2.(d3+1) ++ "-testing.1" with the
first two runs kept verbatim; conversely every success arises that way, so
a tag without a parsable leading triple yields the format error. -/
theorem c3_next_testing_version :
    (∀ p d : List Char, d ≠ [] → d.all Char.isDigit = true →
        p.all (fun c => !(c == '\n')) = true →
        incrementTestingNumber (p ++ tMarker ++ d)
          = some (p ++ tMarker ++ Nat.toDigits 10 (digitsVal d + 1))) ∧
    (∀ v r : List Char, incrementTestingNumber v = some r →
        ∃ p d : List Char, v = p ++ tMarker ++ d ∧ d ≠ [] ∧ d.all Char.isDigit = true ∧
          p.all (fun c => !(c == '\n')) = true ∧
          r = p ++ tMarker ++ Nat.toDigits 10 (digitsVal d + 1)) ∧
    (∀ d1 d2 d3 rest : List Char,
        d1 ≠ [] → d2 ≠ [] → d3 ≠ [] →
        d1.all Char.isDigit = true → d2.all Char.isDigit = true → d3.all Char.isDigit = true →
        (∀ c, rest.head? = some c → Char.isDigit c = false) →
        incrementPatchAndAddTesting (d1 ++ '.' :: (d2 ++ '.' :: (d3 ++ rest)))
          = some (d1 ++ '.' :: (d2 ++ '.' :: (Nat.toDigits 10 (digitsVal d3 + 1)
              ++ "-testing.1".toList)))) ∧
    (∀ v r : List Char, incrementPatchAndAddTesting v = some r →
        ∃ d1 d2 d3 rest : List Char,
          v = d1 ++ '.' :: (d2 ++ '.' :: (d3 ++ rest)) ∧ d1 ≠ [] ∧ d2 ≠ [] ∧ d3 ≠ [] ∧
          d1.all Char.isDigit = true ∧ d2.all Char.isDigit = true ∧ d3.all Char.isDigit = true ∧
          (∀ c, rest.head? = some c → Char.isDigit c = false) ∧
          r = d1 ++ '.' :: (d2 ++ '.' :: (Nat.toDigits 10 (digitsVal d3 + 1)
              ++ "-testing.1".toList))) := by
  refine ⟨?_, ?_, ?_, ?_⟩
  · -- prerelease branch, positive direction
    intro p d hdne hdall hpnl
    have hdall' : d.reverse.all Char.isDigit = true := by rwa [List.all_reverse]
    have hrev : (p ++ tMarker ++ d).reverse = d.reverse ++ (tMarker.reverse ++ p.reverse) := by
      simp [List.reverse_append]
    have htake : ((p ++ tMarker ++ d).reverse).takeWhile Char.isDigit = d.reverse := by
      rw [hrev]
      exact takeWhile_append_of_all hdall' (takeWhile_digit_marker_rev p)
    have hdrop : ((p ++ tMarker ++ d).reverse).dropWhile Char.isDigit
        = tMarker.reverse ++ p.reverse := by
      rw [hrev]
      exact dropWhile_append_of_all hdall' (takeWhile_digit_marker_rev p)
    have hdE : (d.reverse.reverse).isEmpty = false := by
      rw [List.reverse_reverse]
      cases d with
      | nil => exact absurd rfl hdne
      | cons a t => rfl
    have hsuf : tMarker.isSuffixOf ((tMarker.reverse ++ p.reverse).reverse) = true := by
      rw [List.isSuffixOf_iff_suffix, List.reverse_append, List.reverse_reverse,
        List.reverse_reverse]
      exact ⟨p, rfl⟩
    have hcore : (tMarker.reverse ++ p.reverse).reverse = p ++ tMarker := by
      rw [List.reverse_append, List.reverse_reverse, List.reverse_reverse]
    have htakep : (p ++ tMarker).take ((p ++ tMarker).length - tMarker.length) = p := by
      have hl : (p ++ tMarker).length - tMarker.length = p.length := by
        rw [List.length_append]
        omega
      rw [hl, List.take_left]
    simp only [incrementTestingNumber, htake, hdrop, hdE, hsuf, hcore, htakep,
      List.reverse_reverse, Bool.false_eq_true, if_false, if_true]
    rw [if_pos hpnl]
    simp [List.append_assoc, hdne]
  · -- prerelease branch, completeness of the error
    intro v r h
    simp only [incrementTestingNumber] at h
    by_cases h1 : ((v.reverse.takeWhile Char.isDigit).reverse).isEmpty = true
    · rw [if_pos h1] at h
      cases h
    · rw [if_neg h1] at h
      by_cases h2 : tMarker.isSuffixOf ((v.reverse.dropWhile Char.isDigit).reverse) = true
      · rw [if_pos h2] at h
        by_cases h3 : (((v.reverse.dropWhile Char.isDigit).reverse).take
            (((v.reverse.dropWhile Char.isDigit).reverse).length - tMarker.length)).all
            (fun c => !(c == '\n')) = true
        · rw [if_pos h3] at h
          injection h with hr
          obtain ⟨p, hp⟩ := List.isSuffixOf_iff_suffix.mp h2
          refine ⟨p, (v.reverse.takeWhile Char.isDigit).reverse, ?_, ?_, ?_, ?_, ?_⟩
          · rw [hp]
            exact reverse_split_digit v
          · intro hnil
            rw [hnil] at h1
            exact h1 rfl
          · rw [List.all_reverse]
            exact all_takeWhile_self Char.isDigit v.reverse
          · have hl : ((v.reverse.dropWhile Char.isDigit).reverse).length - tMarker.length
                = p.length := by
              rw [← hp, List.length_append]
              omega
            rw [hl, ← hp, List.take_left] at h3
            exact h3
          · rw [← hr, ← hp]
        · rw [if_neg h3] at h
          cases h
      · rw [if_neg h2] at h
        cases h
  · -- stable branch, positive direction
    intro d1 d2 d3 rest h1 h2 h3 ha1 ha2 ha3 hrest
    have hdot : ∀ l : List Char, ('.' :: l).takeWhile Char.isDigit = [] := by
      intro l
      apply takeWhile_nil_of_head
      intro c hc
      injection hc with hc'
      subst hc'
      decide
    have hr0 : rest.takeWhile Char.isDigit = [] := takeWhile_nil_of_head hrest
    have t1 : (d1 ++ '.' :: (d2 ++ '.' :: (d3 ++ rest))).takeWhile Char.isDigit = d1 :=
      takeWhile_append_of_all ha1 (hdot _)
    have t2 : (d1 ++ '.' :: (d2 ++ '.' :: (d3 ++ rest))).dropWhile Char.isDigit
        = '.' :: (d2 ++ '.' :: (d3 ++ rest)) :=
      dropWhile_append_of_all ha1 (hdot _)
    have t3 : (d2 ++ '.' :: (d3 ++ rest)).takeWhile Char.isDigit = d2 :=
      takeWhile_append_of_all ha2 (hdot _)
    have t4 : (d2 ++ '.' :: (d3 ++ rest)).dropWhile Char.isDigit = '.' :: (d3 ++ rest) :=
      dropWhile_append_of_all ha2 (hdot _)
    have t5 : (d3 ++ rest).takeWhile Char.isDigit = d3 :=
      takeWhile_append_of_all ha3 hr0
    have hE1 : d1.isEmpty = false := by
      cases d1 with
      | nil => exact absurd rfl h1
      | cons a t => rfl
    have hE2 : d2.isEmpty = false := by
      cases d2 with
      | nil => exact absurd rfl h2
      | cons a t => rfl
    have hE3 : d3.isEmpty = false := by
      cases d3 with
      | nil => exact absurd rfl h3
      | cons a t => rfl
    simp only [incrementPatchAndAddTesting, t1, t2, t3, t4, t5, hE1, hE2, hE3,
      Bool.or_self, Bool.false_or, Bool.or_false, Bool.false_eq_true, if_false]
    simp [List.append_assoc]
  · -- stable branch, completeness of the error
    intro v r h
    simp only [incrementPatchAndAddTesting] at h
    split at h
    case _ r1 heq1 =>
      split at h
      case _ r2 heq2 =>
        by_cases hE : ((v.takeWhile Char.isDigit).isEmpty || (r1.takeWhile Char.isDigit).isEmpty
            || (r2.takeWhile Char.isDigit).isEmpty) = true
        · rw [if_pos hE] at h
          cases h
        rw [if_neg hE] at h
        injection h with hr
        simp only [Bool.or_eq_true, not_or, Bool.not_eq_true] at hE
        obtain ⟨⟨hEa, hEb⟩, hEc⟩ := hE
        refine ⟨v.takeWhile Char.isDigit, r1.takeWhile Char.isDigit,
          r2.takeWhile Char.isDigit, r2.dropWhile Char.isDigit, ?_, ?_, ?_, ?_, ?_, ?_, ?_, ?_, ?_⟩
        · conv_lhs => rw [← List.takeWhile_append_dropWhile (p := Char.isDigit) (l := v), heq1]
          congr 2
          conv_lhs => rw [← List.takeWhile_append_dropWhile (p := Char.isDigit) (l := r1), heq2]
          congr 2
          exact (List.takeWhile_append_dropWhile (p := Char.isDigit) (l := r2)).symm
        · intro hnil
          rw [hnil] at hEa
          simp at hEa
        · intro hnil
          rw [hnil] at hEb
          simp at hEb
        · intro hnil
          rw [hnil] at hEc
          simp at hEc
        · exact all_takeWhile_self Char.isDigit v
        · exact all_takeWhile_self Char.isDigit r1
        · exact all_takeWhile_self Char.isDigit r2
        · intro c hc
          cases hdw : r2.dropWhile Char.isDigit with
          | nil => rw [hdw] at hc; cases hc
          | cons x t =>
            rw [hdw] at hc
            injection hc with hc'
            subst hc'
            exact dropWhile_head_false hdw
        · rw [← hr]
          simp [List.append_assoc]
      case _ =>
        exact absurd h (by simp)
    case _ =>
      exact absurd h (by simp)

theorem c3_next_testing_version_witness :
    incrementTestingNumber "1.0.1-testing.9".toList = some "1.0.1-testing.10".toList ∧
    incrementPatchAndAddTesting "1.0.0".toList = some "1.0.1-testing.1".toList := by
  constructor
  · have h := c3_next_testing_version.1 "1.0.1".toList "9".toList (by decide) (by decide) (by decide)
    rw [show ("1.0.1".toList ++ tMarker ++ "9".toList) = "1.0.1-testing.9".toList from by decide] at h
    rw [h]
    decide
  · have h := c3_next_testing_version.2.2.1 "1".toList "0".toList "0".toList []
      (by decide) (by decide) (by decide) (by decide) (by decide) (by decide)
      (by intro c hc; cases hc)
    rw [show ("1".toList ++ '.' :: ("0".toList ++ '.' :: ("0".toList ++ ([] : List Char))))
        = "1.0.0".toList from by decide] at h
    rw [h]
    decide

/-! ## C6 and C7 -/

theorem regexParensOk_append_clean :
    ∀ (l1 : List Char), (∀ c ∈ l1, c ≠ '(' ∧ c ≠ ')' ∧ c ≠ '\\') →
      ∀ (l2 : List Char) (d : Nat), regexParensOk (l1 ++ l2) d = regexParensOk l2 d := by
  intro l1
  induction l1 with
  | nil => intro _ l2 d; rfl
  | cons c t ih =>
    intro h l2 d
    have hc := h c (by simp)
    have h1 : ¬((c == '\\') = true) := by simp [hc.2.2]
    have h2 : ¬((c == '(') = true) := by simp [hc.1]
    have h3 : ¬((c == ')') = true) := by simp [hc.2.1]
    rw [List.cons_append]
    rw [show regexParensOk (c :: (t ++ l2)) d = regexParensOk (t ++ l2) d from by
      unfold regexParensOk
      rw [if_neg h1, if_neg h2, if_neg h3]
      exact regexParensOk.eq_def (t ++ l2) d]
    exact ih (fun x hx => h x (List.mem_cons_of_mem c hx)) l2 d

theorem regexParensOk_escape (c : Char) (l : List Char) (d : Nat) :
    regexParensOk ('\\' :: c :: l) d = regexParensOk l d := by
  conv_lhs => rw [regexParensOk.eq_def]
  simp

theorem clean_of_no_meta {tok : List Char} (h : ∀ c ∈ tok, c ∉ regexMetaChars) :
    ∀ c ∈ tok, c ≠ '(' ∧ c ≠ ')' ∧ c ≠ '\\' := by
  intro c hcm
  have hx := h c hcm
  refine ⟨?_, ?_, ?_⟩ <;> intro he <;> subst he <;> exact hx (by decide)

theorem regexParensOk_pat1 (owner : List Char)
    (hcO : ∀ c ∈ owner, c ≠ '(' ∧ c ≠ ')' ∧ c ≠ '\\') :
    regexParensOk (owner ++ "/issues/(\\d+)".toList) 0 = true := by
  rw [regexParensOk_append_clean owner hcO]
  decide

theorem regexParensOk_pat2 (owner name : List Char)
    (hcO : ∀ c ∈ owner, c ≠ '(' ∧ c ≠ ')' ∧ c ≠ '\\')
    (hcN : ∀ c ∈ name, c ≠ '(' ∧ c ≠ ')' ∧ c ≠ '\\') :
    regexParensOk (owner ++ '/' :: (name ++ "#(\\d+)".toList)) 0 = true := by
  rw [regexParensOk_append_clean owner hcO]
  rw [show ('/' :: (name ++ "#(\\d+)".toList)) = ['/'] ++ (name ++ "#(\\d+)".toList) from rfl]
  rw [regexParensOk_append_clean ['/'] (by decide), regexParensOk_append_clean name hcN]
  decide

theorem regexParensOk_pat3 (owner name : List Char)
    (hcO : ∀ c ∈ owner, c ≠ '(' ∧ c ≠ ')' ∧ c ≠ '\\')
    (hcN : ∀ c ∈ name, c ≠ '(' ∧ c ≠ ')' ∧ c ≠ '\\') :
    regexParensOk
      ("https://github\\.com/".toList ++ (owner ++ '/' :: (name ++ "/issues/(\\d+)".toList)))
      0 = true := by
  rw [show "https://github\\.com/".toList
      = "https://github".toList ++ ('\\' :: '.' :: "com/".toList) from by decide]
  rw [List.append_assoc]
  rw [regexParensOk_append_clean "https://github".toList (by decide)]
  simp only [List.cons_append]
  rw [regexParensOk_escape]
  rw [regexParensOk_append_clean "com/".toList (by decide)]
  rw [regexParensOk_append_clean owner hcO]
  rw [show ('/' :: (name ++ "/issues/(\\d+)".toList))
      = ['/'] ++ (name ++ "/issues/(\\d+)".toList) from rfl]
  rw [regexParensOk_append_clean ['/'] (by decide), regexParensOk_append_clean name hcN]
  decide

/-- C6 counterexample: issuesRepo "(/x" contains exactly one '/' separator
and the body is empty, so the claim demands the empty list; but the owner
token "(" makes the first built pattern an invalid regular expression, and
the Go function panics in regexp.MustCompile instead of returning. -/
theorem c6_get_linked_issues_counterexample :
    GetLinkedIssues [] "(/x".toList = none ∧ "(/x".toList.count '/' = 1 := by
  decide

/-- C6 amended: GetLinkedIssues returns a list without panicking whenever
issuesRepo does not split into exactly two parts (the empty list, returned
before any pattern is built), and whenever the owner and name tokens are
free of regex metacharacters; a token that makes a built pattern an invalid
regular expression (such as owner "(") makes the Go function panic instead
of returning. -/
theorem c6_get_linked_issues_amended :
    (∀ (body issuesRepo : List Char), (issuesRepo.splitOn '/').length ≠ 2 →
        GetLinkedIssues body issuesRepo = some []) ∧
    (∀ (body owner name : List Char),
        (∀ c ∈ owner, c ∉ regexMetaChars ∧ c ≠ '/') →
        (∀ c ∈ name, c ∉ regexMetaChars ∧ c ≠ '/') →
        (GetLinkedIssues body (owner ++ '/' :: name)).isSome = true) := by
  constructor
  · intro body repoStr hlen
    cases hsp : repoStr.splitOn '/' with
    | nil => simp [GetLinkedIssues, hsp]
    | cons a tl =>
      cases tl with
      | nil => simp [GetLinkedIssues, hsp]
      | cons b tl2 =>
        cases tl2 with
        | nil => rw [hsp] at hlen; simp at hlen
        | cons c tl3 => simp [GetLinkedIssues, hsp]
  · intro body owner name hO hN
    have hON : '/' ∉ owner := fun hx => (hO '/' hx).2 rfl
    have hNN : '/' ∉ name := fun hx => (hN '/' hx).2 rfl
    have hsplit : (owner ++ '/' :: name).splitOn '/' = [owner, name] := by
      have h := List.splitOn_intercalate [owner, name] '/'
        (by
          intro l hl
          simp only [List.mem_cons, List.mem_singleton] at hl
          rcases hl with h | h | h
          · subst h; exact hON
          · subst h; exact hNN
          · cases h)
        (by simp)
      simpa [List.intercalate, List.intersperse] using h
    have hcO : ∀ c ∈ owner, c ≠ '(' ∧ c ≠ ')' ∧ c ≠ '\\' :=
      clean_of_no_meta (fun c hc => (hO c hc).1)
    have hcN : ∀ c ∈ name, c ≠ '(' ∧ c ≠ ')' ∧ c ≠ '\\' :=
      clean_of_no_meta (fun c hc => (hN c hc).1)
    simp only [GetLinkedIssues, hsplit]
    simp only [List.append_assoc, List.cons_append]
    rw [regexParensOk_pat1 owner hcO, regexParensOk_pat2 owner name hcO hcN,
      regexParensOk_pat3 owner name hcO hcN]
    simp

theorem c6_get_linked_issues_amended_witness :
    (("abc".toList.splitOn '/').length ≠ 2 ∧ GetLinkedIssues [] "abc".toList = some []) ∧
    (GetLinkedIssues c7Body ("NethServer".toList ++ '/' :: "dev".toList)).isSome = true :=
  ⟨⟨by decide, c6_get_linked_issues_amended.1 [] "abc".toList (by decide)⟩,
    c6_get_linked_issues_amended.2 c7Body "NethServer".toList "dev".toList
      (by decide) (by decide)⟩

/-- C7: on the spec's worked example the extraction returns exactly 42 and
43; an issue referenced through two different forms is kept twice
(duplicates across forms are preserved); and lowercasing the owner token in
the body defeats every pattern (matching is case-sensitive on the
owner/name tokens). -/
theorem c7_extract_linked_issues :
    GetLinkedIssues c7Body c7Repo = some [42, 43] ∧
    GetLinkedIssues c7BodyDup c7Repo = some [7, 7] ∧
    GetLinkedIssues c7BodyLower c7Repo = some [] := by
  refine ⟨by decide, by decide, by decide⟩

/-! ## C9 -/

theorem find?_eq_some_iff_first {α : Type} (p : α → Bool) :
    ∀ (l : List α) (x : α),
      l.find? p = some x ↔
        ∃ j : Nat, l[j]? = some x ∧ p x = true ∧
          ∀ (k : Nat) (y : α), k < j → l[k]? = some y → p y = false := by
  intro l
  induction l with
  | nil =>
    intro x
    constructor
    · intro h; cases h
    · rintro ⟨j, hj, _, _⟩
      simp at hj
  | cons a t ih =>
    intro x
    by_cases hpa : p a = true
    · rw [List.find?_cons_of_pos _ hpa]
      constructor
      · intro h
        injection h with h'
        subst h'
        exact ⟨0, by simp, hpa, fun k y hk _ => absurd hk (by omega)⟩
      · rintro ⟨j, hj, hpx, hmin⟩
        cases j with
        | zero =>
          rw [List.getElem?_cons_zero] at hj
          injection hj with hj'
          rw [hj']
        | succ j' =>
          have hcontra := hmin 0 a (by omega) (by simp)
          rw [hpa] at hcontra
          cases hcontra
    · have hpa' : p a = false := by
        cases hv : p a with
        | true => exact absurd hv hpa
        | false => rfl
      rw [List.find?_cons_of_neg _ hpa]
      rw [ih]
      constructor
      · rintro ⟨j, hj, hpx, hmin⟩
        refine ⟨j + 1, by simpa using hj, hpx, ?_⟩
        intro k y hk hky
        cases k with
        | zero =>
          rw [List.getElem?_cons_zero] at hky
          injection hky with hky'
          rw [← hky']
          exact hpa'
        | succ k' =>
          exact hmin k' y (by omega) (by simpa using hky)
      · rintro ⟨j, hj, hpx, hmin⟩
        cases j with
        | zero =>
          rw [List.getElem?_cons_zero] at hj
          injection hj with hj'
          rw [← hj'] at hpx
          exact absurd hpx hpa
        | succ j' =>
          exact ⟨j', by simpa using hj, hpx,
            fun k y hk hky => hmin (k + 1) y (by omega) (by simpa using hky)⟩

theorem find?_drop_iff {α : Type} (p : α → Bool) (l : List α) (n : Nat) (x : α) :
    (l.drop n).find? p = some x ↔
      ∃ j : Nat, n ≤ j ∧ l[j]? = some x ∧ p x = true ∧
        ∀ (k : Nat) (y : α), n ≤ k → k < j → l[k]? = some y → p y = false := by
  rw [find?_eq_some_iff_first]
  constructor
  · rintro ⟨j, hj, hpx, hmin⟩
    refine ⟨n + j, by omega, ?_, hpx, ?_⟩
    · rw [← List.getElem?_drop]
      exact hj
    · intro k y hnk hkj hky
      refine hmin (k - n) y (by omega) ?_
      rw [List.getElem?_drop, show n + (k - n) = k from by omega]
      exact hky
  · rintro ⟨j, hnj, hj, hpx, hmin⟩
    refine ⟨j - n, ?_, hpx, ?_⟩
    · rw [List.getElem?_drop, show n + (j - n) = j from by omega]
      exact hj
    · intro k y hk hky
      refine hmin (n + k) y (by omega) (by omega) ?_
      rw [← List.getElem?_drop]
      exact hky

/-- C9: given the recency-ordered release list (newest first) with the
current tag at index i: when the current tag is the oldest entry the search
errors; when the current release is a pre-release the result is the tag at
index i+1, the immediately preceding release of any kind; when it is
stable, the result is t exactly when t is the tag of the first
non-prerelease strictly after i — i.e. the nearest preceding stable tag,
every release between them being a pre-release — and the
no-previous-stable error occurs exactly when everything after i is a
pre-release.  The concrete conjuncts evaluate the code on the spec's
scenarios: a stable tag skipping two pre-releases, a pre-release tag taking
its immediate predecessor, and the oldest release erroring. -/
theorem c9_find_previous_release :
    (∀ (rels : List Release) (tag : String) (pre : Bool) (i : Nat),
      rels.findIdx? (fun r => r.TagName == tag) = some i →
      ((i = rels.length - 1 → FindPreviousRelease pre rels tag = .error .noPrevious) ∧
       (i ≠ rels.length - 1 → pre = true →
         ∀ r, rels[i + 1]? = some r → FindPreviousRelease pre rels tag = .ok r.TagName) ∧
       (pre = false → ∀ t,
         (FindPreviousRelease pre rels tag = .ok t ↔
           ∃ j, i < j ∧ (∃ r, rels[j]? = some r ∧ r.IsPrerelease = false ∧ r.TagName = t) ∧
             ∀ k r', i < k → k < j → rels[k]? = some r' → r'.IsPrerelease = true)) ∧
       (pre = false →
         (FindPreviousRelease pre rels tag = .error .noPreviousStable ↔
           i ≠ rels.length - 1 ∧
             ∀ j r, i < j → rels[j]? = some r → r.IsPrerelease = true)))) ∧
    FindPreviousRelease false c9Rels "1.0.1" = .ok "1.0.0" ∧
    FindPreviousRelease true c9RelsPre "1.0.1-testing.2" = .ok "1.0.1-testing.1" ∧
    FindPreviousRelease false [{ TagName := "1.0.0", IsPrerelease := false }] "1.0.0"
      = .error .noPrevious := by
  refine ⟨?_, rfl, rfl, rfl⟩
  intro rels tag pre i hidx
  have hilen : i < rels.length := (List.findIdx?_eq_some_iff_findIdx_eq.mp hidx).1
  have hfp : FindPreviousRelease pre rels tag =
      (if i = rels.length - 1 then Except.error PrevReleaseError.noPrevious
       else if pre = true then
         match (rels.drop (i + 1)).head? with
         | some r => Except.ok r.TagName
         | none => Except.error PrevReleaseError.noPrevious
       else
         match (rels.drop (i + 1)).find? (fun r => !r.IsPrerelease) with
         | some r => Except.ok r.TagName
         | none => Except.error PrevReleaseError.noPreviousStable) := by
    unfold FindPreviousRelease
    rw [hidx]
  rw [hfp]
  refine ⟨?_, ?_, ?_, ?_⟩
  · intro hlast
    rw [if_pos hlast]
  · intro hnl hpre r hr
    rw [if_neg hnl, if_pos hpre, List.head?_drop, hr]
  · intro hpre t
    by_cases hlast : i = rels.length - 1
    · rw [if_pos hlast]
      constructor
      · intro h
        exact absurd h (by simp)
      · rintro ⟨j, hij, ⟨r, hr, _, _⟩, _⟩
        have hlen : rels.length ≤ j := by omega
        rw [List.getElem?_eq_none hlen] at hr
        cases hr
    · rw [if_neg hlast, if_neg (by simp [hpre])]
      cases hf : (rels.drop (i + 1)).find? (fun r => !r.IsPrerelease) with
      | some r =>
        simp only [hf]
        constructor
        · intro h
          injection h with h'
          obtain ⟨j0, hnj0, hj0, hpx0, hmin0⟩ :=
            (find?_drop_iff (fun r => !r.IsPrerelease) rels (i + 1) r).mp hf
          refine ⟨j0, by omega, ⟨r, hj0, by simpa using hpx0, h'⟩, ?_⟩
          intro k r' hik hkj hk
          have hc := hmin0 k r' (by omega) hkj hk
          simpa using hc
        · rintro ⟨j, hij, ⟨r', hr', hpre', ht⟩, hmin⟩
          obtain ⟨j0, hnj0, hj0, hpx0, hmin0⟩ :=
            (find?_drop_iff (fun r => !r.IsPrerelease) rels (i + 1) r).mp hf
          have hj_eq : j = j0 := by
            by_contra hne
            rcases Nat.lt_or_ge j j0 with hlt | hge
            · have hc := hmin0 j r' (by omega) hlt hr'
              simp [hpre'] at hc
            · have hgt : j0 < j := by omega
              have hc := hmin j0 r (by omega) hgt hj0
              simp [hc] at hpx0
          rw [hj_eq, hj0] at hr'
          injection hr' with hrr
          rw [← ht, hrr]
      | none =>
        simp only [hf]
        constructor
        · intro h
          exact absurd h (by simp)
        · rintro ⟨j, hij, ⟨r', hr', hpre', _⟩, _⟩
          rw [List.find?_eq_none] at hf
          have hmem : r' ∈ rels.drop (i + 1) := by
            rw [List.mem_iff_getElem?]
            refine ⟨j - (i + 1), ?_⟩
            rw [List.getElem?_drop, show i + 1 + (j - (i + 1)) = j from by omega]
            exact hr'
          have hc := hf r' hmem
          simp [hpre'] at hc
  · intro hpre
    by_cases hlast : i = rels.length - 1
    · rw [if_pos hlast]
      constructor
      · intro h
        injection h with h'
        cases h'
      · rintro ⟨hne, _⟩
        exact absurd hlast hne
    · rw [if_neg hlast, if_neg (by simp [hpre])]
      cases hf : (rels.drop (i + 1)).find? (fun r => !r.IsPrerelease) with
      | some r =>
        simp only [hf]
        constructor
        · intro h
          exact absurd h (by simp)
        · rintro ⟨_, hall⟩
          obtain ⟨j0, hnj0, hj0, hpx0, _⟩ :=
            (find?_drop_iff (fun r => !r.IsPrerelease) rels (i + 1) r).mp hf
          have hc := hall j0 r (by omega) hj0
          simp [hc] at hpx0
      | none =>
        simp only [hf]
        constructor
        · intro _
          refine ⟨hlast, ?_⟩
          intro j r hij hj
          rw [List.find?_eq_none] at hf
          have hmem : r ∈ rels.drop (i + 1) := by
            rw [List.mem_iff_getElem?]
            refine ⟨j - (i + 1), ?_⟩
            rw [List.getElem?_drop, show i + 1 + (j - (i + 1)) = j from by omega]
            exact hj
          have hc := hf r hmem
          simpa using hc
        · intro _
          trivial

theorem c9_find_previous_release_witness :
    FindPreviousRelease true c9RelsPre "1.0.1-testing.2" = .ok "1.0.1-testing.1" :=
  (c9_find_previous_release.1 c9RelsPre "1.0.1-testing.2" true 0 (by decide)).2.1
    (by decide) rfl { TagName := "1.0.1-testing.1", IsPrerelease := true } (by decide)

/-! ## C10 -/

theorem runCreate_fields :
    ∀ (t d : Bool) (na : String) (auto : Option String) (tg : String) (c : CreateReleaseCall),
      runCreate t d na auto tg = some c →
      c.prerelease = (t || na.toList.contains '-') ∧ (t = false → c.tag = na) := by
  intro t d na auto tg c h
  unfold runCreate at h
  split at h
  case _ => cases h
  case _ name hname =>
    split_ifs at h with h1 h2
    all_goals cases h
    refine ⟨rfl, ?_⟩
    intro htf
    rw [htf] at hname
    simp only [Bool.false_and, Bool.false_eq_true, if_false] at hname
    injection hname with hname'
    exact hname'.symm

/-- C10: every create invocation that reaches the release-creation call has
the prerelease flag set iff the --testing flag is given or the resolved
release name contains a hyphen; in particular a semver-valid hyphenated
name such as "1.0.0-rc.1" is created as a prerelease without --testing, a
plain "1.0.0" is created stable, and "1.0.0" with --testing is created as a
prerelease. -/
theorem c10_prerelease_flag :
    (∀ (testing draft : Bool) (nameArg : String) (auto : Option String) (target : String)
        (c : CreateReleaseCall),
      runCreate testing draft nameArg auto target = some c →
      (c.prerelease = true ↔ (testing = true ∨ c.tag.toList.contains '-' = true))) ∧
    runCreate false false "1.0.0-rc.1" none "" = some
      { tag := "1.0.0-rc.1", title := "1.0.0-rc.1", draft := false, prerelease := true,
        target := "" } ∧
    runCreate false false "1.0.0" none "" = some
      { tag := "1.0.0", title := "1.0.0", draft := false, prerelease := false, target := "" } ∧
    runCreate true false "1.0.0" none "sha" = some
      { tag := "1.0.0", title := "1.0.0", draft := false, prerelease := true,
        target := "sha" } := by
  refine ⟨?_, by decide, by decide, by decide⟩
  intro t d na auto tg c h
  obtain ⟨hpre, htag⟩ := runCreate_fields t d na auto tg c h
  cases t with
  | true => simp [hpre]
  | false =>
    rw [hpre, htag rfl]
    simp

theorem c10_prerelease_flag_witness :
    (({ tag := "1.0.0-rc.1", title := "1.0.0-rc.1", draft := false, prerelease := true,
        target := "" } : CreateReleaseCall).prerelease = true ↔
      (false = true ∨ ("1.0.0-rc.1" : String).toList.contains '-' = true)) :=
  c10_prerelease_flag.1 false false "1.0.0-rc.1" none ""
    { tag := "1.0.0-rc.1", title := "1.0.0-rc.1", draft := false, prerelease := true,
      target := "" } (by decide)

end GhNs8
